import Mathlib

/-!
Shallow embedding of the text-metrics and emotion-analysis services of the
Job-Preparation repository (TypeScript), together with proofs of the claims
about them.  JavaScript numbers are idealised as exact rationals (for the
purely arithmetic emotion/ROUGE code) or reals (for the logarithmic
perplexity code); the NaN produced by `0/0` on an empty mean is modelled
explicitly by `Option`, and the `±Infinity` sentinels of the perplexity
results by `EReal`.
-/

/-- ASCII word character: the class `\w` of the source's regular
expressions (letters, digits, underscore). -/
def isWordChar (c : Char) : Bool := c.isAlphanum || c == '_'

/-- ASCII whitespace: the class `\s` of the source's regular expressions,
which is also the set of characters removed by `trim()`. -/
def isSpaceChar (c : Char) : Bool :=
  c == ' ' || c == '\t' || c == '\n' || c == '\r' || c == '\x0b' || c == '\x0c'

/-- One character of `text.replace(/[^\w\s]/g, ' ')`: a character that is
neither a word character nor whitespace becomes a space. -/
def blankNonWord (c : Char) : Char :=
  if isWordChar c || isSpaceChar c then c else ' '

/-- Split a character list at whitespace runs, dropping empty pieces: the
combination `split(/\s+/)` followed by `filter(word => word.length > 0)`
of the source's `tokenize`.  `cur` accumulates the current word reversed. -/
def wordsAux : List Char → List Char → List (List Char)
  | [], cur => if cur.isEmpty then [] else [cur.reverse]
  | c :: rest, cur =>
    if isSpaceChar c then
      if cur.isEmpty then wordsAux rest [] else cur.reverse :: wordsAux rest []
    else wordsAux rest (c :: cur)

/-- `tokenize` of the metrics module: lowercase, replace `[^\w\s]` by
spaces, split on whitespace, drop empty words. -/
def tokenize (text : String) : List String :=
  (wordsAux (text.toList.map fun c => blankNonWord c.toLower) []).map fun w => String.mk w

/-- The test `text.trim().length === 0`: true iff every character of the
string is whitespace. -/
def isBlank (s : String) : Bool := s.toList.all isSpaceChar

/-- `array.join(' ')`. -/
def joinSp (l : List String) : String := String.intercalate " " l

/-- `generateNGrams`: every window of `n` consecutive tokens joined by
single spaces; the source loop runs for `0 ≤ i ≤ tokens.length - n`, hence
`tokens.length + 1 - n` windows (none when the list is shorter than `n`). -/
def generateNGrams (tokens : List String) (n : Nat) : List String :=
  (List.range (tokens.length + 1 - n)).map fun i => joinSp ((tokens.drop i).take n)

/-- The precision/recall/F1 triple returned by the ROUGE helpers. -/
structure PRF where
  precision : ℚ
  recallV : ℚ
  f1 : ℚ
  deriving DecidableEq

/-- `calculatePrecisionRecallF1`.  The JavaScript `Set`s are modelled by
deduplicated lists: the only observations the source makes of them are
their size and membership, which deduplication preserves. -/
def calculatePrecisionRecallF1 (candidateNGrams referenceNGrams : List String) : PRF :=
  if referenceNGrams.isEmpty then ⟨0, 0, 0⟩
  else
    let candidateSet := candidateNGrams.dedup
    let referenceSet := referenceNGrams.dedup
    let matchCount := (candidateSet.filter fun g => referenceSet.contains g).length
    let precision : ℚ := if candidateSet.length > 0 then (matchCount : ℚ) / candidateSet.length else 0
    let recallV : ℚ := (matchCount : ℚ) / referenceSet.length
    let f1 : ℚ :=
      if precision + recallV > 0 then 2 * precision * recallV / (precision + recallV) else 0
    ⟨precision, recallV, f1⟩

/-- `lcsLength`: the source fills the dynamic-programming table of the
classic recurrence `dp[i][j]` (comparing `seq1[i-1]` with `seq2[j-1]`,
taking `dp[i-1][j-1]+1` on a match and `max(dp[i-1][j], dp[i][j-1])`
otherwise) and returns `dp[m][n]`.  This structural recursion is that same
recurrence read off the fronts of the two lists, computing the identical
longest-common-subsequence length. -/
def lcsLength : List String → List String → Nat
  | [], _ => 0
  | _ :: _, [] => 0
  | a :: s, b :: t =>
    if a = b then lcsLength s t + 1
    else max (lcsLength s (b :: t)) (lcsLength (a :: s) t)
termination_by s t => s.length + t.length
decreasing_by all_goals simp +arith [List.length_cons]

/-- The record returned by `calculateROUGE`. -/
structure ROUGEScores where
  rouge1 : PRF
  rouge2 : PRF
  rougeL : PRF
  deriving DecidableEq

/-- One iteration of the reference loop of `calculateROUGE`: compute the
three metrics against one reference and update the three independent
running best-F1 triples. -/
def rougeStep (candTokens candUnigrams candBigrams : List String)
    (best : PRF × PRF × PRF) (reference : String) : PRF × PRF × PRF :=
  let refTokens := tokenize reference
  let rouge1 := calculatePrecisionRecallF1 candUnigrams (generateNGrams refTokens 1)
  let rouge2 := calculatePrecisionRecallF1 candBigrams (generateNGrams refTokens 2)
  let lcsLen := lcsLength candTokens refTokens
  let rougeLPrecision : ℚ :=
    if candTokens.length > 0 then (lcsLen : ℚ) / candTokens.length else 0
  let rougeLRecall : ℚ :=
    if refTokens.length > 0 then (lcsLen : ℚ) / refTokens.length else 0
  let rougeLF1 : ℚ :=
    if rougeLPrecision + rougeLRecall > 0 then
      2 * rougeLPrecision * rougeLRecall / (rougeLPrecision + rougeLRecall)
    else 0
  let best1 := if rouge1.f1 > best.1.f1 then rouge1 else best.1
  let best2 := if rouge2.f1 > best.2.1.f1 then rouge2 else best.2.1
  let bestL :=
    if rougeLF1 > best.2.2.f1 then ⟨rougeLPrecision, rougeLRecall, rougeLF1⟩ else best.2.2
  (best1, best2, bestL)

/-- `calculateROUGE`, after the `Array.isArray` normalisation of its second
argument (a single reference string X is passed as the list [X]). -/
def calculateROUGE (candidate : String) (references : List String) : ROUGEScores :=
  if references.isEmpty || isBlank candidate then ⟨⟨0, 0, 0⟩, ⟨0, 0, 0⟩, ⟨0, 0, 0⟩⟩
  else
    let candidateTokens := tokenize candidate
    let candidateUnigrams := generateNGrams candidateTokens 1
    let candidateBigrams := generateNGrams candidateTokens 2
    let best := references.foldl
      (rougeStep candidateTokens candidateUnigrams candidateBigrams)
      (⟨0, 0, 0⟩, ⟨0, 0, 0⟩, ⟨0, 0, 0⟩)
    ⟨best.1, best.2.1, best.2.2⟩

/-- A JavaScript `Map<string, number>` as used by the counting loops: the
insertion-ordered key list together with the stored count (0 for absent
keys; the loops never store 0, so absence and count 0 coincide, but
membership is nevertheless tracked through `keys` as `Map` does). -/
structure CountMap where
  keys : List String
  count : String → Nat

/-- `map.set(k, (map.get(k) || 0) + 1)`: increment the count of `k`,
appending `k` to the key list when it is new. -/
def CountMap.incr (m : CountMap) (k : String) : CountMap where
  keys := if k ∈ m.keys then m.keys else m.keys ++ [k]
  count := fun x => if x = k then m.count x + 1 else m.count x

/-- The counting loop: fold `incr` over a list of occurrences, starting
from the empty map. -/
def buildCountMap (l : List String) : CountMap :=
  l.foldl CountMap.incr ⟨[], fun _ => 0⟩

/-- The record returned by the perplexity functions.  Values are extended
reals: `⊤` models the JavaScript `Infinity` sentinel and `⊥` models
`-Infinity`; the `isFinite` normalisation of the source is the identity on
the (always finite) coerced real values produced in the main branches. -/
structure PerplexityResult where
  perplexity : EReal
  averageLogProbability : EReal
  tokenCount : Nat

/-- `calculateUnigramPerplexity`: add-one-smoothed unigram model over the
token list itself. -/
noncomputable def calculateUnigramPerplexity (tokens : List String) : PerplexityResult :=
  if tokens.isEmpty then ⟨⊤, ⊥, 0⟩
  else
    let wordCounts := buildCountMap tokens
    let vocabularySize := wordCounts.keys.length
    let totalLogProb : ℝ := (tokens.map fun token =>
      Real.log (((wordCounts.count token : ℝ) + 1) /
        ((tokens.length : ℝ) + (vocabularySize : ℝ) + 1))).sum
    let averageLogProbability : ℝ := totalLogProb / (tokens.length : ℝ)
    ⟨((Real.exp (-averageLogProbability) : ℝ) : EReal),
      ((averageLogProbability : ℝ) : EReal), tokens.length⟩

/-- `calculatePerplexity`: blank text returns the infinite sentinels; text
with fewer tokens than `ngramOrder` delegates to the unigram model; the
main branch scores every n-gram window with add-one smoothing against the
n-gram and context counts of the same text (the second loop of the source
recomputes each window, which the position map mirrors).  The source's
`validNGrams > 0` ternary is the final `if`: with zero windows the raw
values are `-Infinity` and `exp(Infinity)`, which the `isFinite` guards
normalise to the sentinels. -/
noncomputable def calculatePerplexity (text : String) (ngramOrder : Nat) : PerplexityResult :=
  if isBlank text then ⟨⊤, ⊥, 0⟩
  else
    let tokens := tokenize text
    if tokens.length < ngramOrder then calculateUnigramPerplexity tokens
    else
      let positions := List.range (tokens.length + 1 - ngramOrder)
      let ngramCounts := buildCountMap (positions.map fun i =>
        joinSp ((tokens.drop i).take ngramOrder))
      let contextCounts := buildCountMap (positions.map fun i =>
        joinSp ((tokens.drop i).take (ngramOrder - 1)))
      let vocabularySize := ngramCounts.keys.length
      let logTerms : List ℝ := positions.map fun i =>
        Real.log (((ngramCounts.count (joinSp ((tokens.drop i).take ngramOrder)) : ℝ) + 1) /
          ((contextCounts.count (joinSp ((tokens.drop i).take (ngramOrder - 1))) : ℝ) +
            (vocabularySize : ℝ) + 1))
      let totalLogProb : ℝ := logTerms.sum
      let validNGrams := positions.length
      if validNGrams = 0 then ⟨⊤, ⊥, tokens.length⟩
      else
        let averageLogProbability : ℝ := totalLogProb / (validNGrams : ℝ)
        ⟨((Real.exp (-averageLogProbability) : ℝ) : EReal),
          ((averageLogProbability : ℝ) : EReal), tokens.length⟩

/-- `calculatePerplexityFromLogProbs`.  An input entry `some r` is a finite
log-probability; `none` models any non-finite entry (`±Infinity`, `NaN`),
exactly the values rejected by the source's `isFinite` filter. -/
noncomputable def calculatePerplexityFromLogProbs (logProbabilities : List (Option ℝ)) :
    PerplexityResult :=
  if logProbabilities.isEmpty then ⟨⊤, ⊥, 0⟩
  else
    let validProbs := logProbabilities.filterMap id
    if validProbs.isEmpty then ⟨⊤, ⊥, logProbabilities.length⟩
    else
      let averageLogProbability : ℝ := validProbs.sum / (validProbs.length : ℝ)
      ⟨((Real.exp (-averageLogProbability) : ℝ) : EReal),
        ((averageLogProbability : ℝ) : EReal), logProbabilities.length⟩

/-- A transcript message as consumed by `analyzeEmotions` (Hume-feature
variant).  `speaker` is `Option` so that a malformed message missing the
field (JavaScript `undefined`) is representable; `emotionFeatures` is the
optional emotion map, an insertion-ordered association list. -/
structure Msg where
  speaker : Option String
  text : String
  emotionFeatures : Option (List (String × ℚ))

/-- A transcript message as consumed by `analyzeTextEmotions`. -/
structure TextMsg where
  speaker : Option String
  text : String

/-- Property access `fs[k]` on an emotion object: the stored value, or
`undefined` (`none`) when the key is absent. -/
def lookupF (fs : List (String × ℚ)) (k : String) : Option ℚ :=
  (fs.find? fun p => p.1 == k).map fun p => p.2

/-- `fs[k] ?? 0`. -/
def getF (fs : List (String × ℚ)) (k : String) : ℚ := (lookupF fs k).getD 0

/-- JavaScript `x || d` on an optional number: `d` when the value is
absent or zero (zero is falsy), the value itself otherwise. -/
def jsOr (x : Option ℚ) (d : ℚ) : ℚ :=
  match x with
  | some v => if v == 0 then d else v
  | none => d

/-- Assignment `fs[k] = v` on an emotion object: overwrite in place when
the key exists, append otherwise (JavaScript key-order semantics). -/
def setF (fs : List (String × ℚ)) (k : String) (v : ℚ) : List (String × ℚ) :=
  if fs.any fun p => p.1 == k then fs.map fun p => if p.1 == k then (k, v) else p
  else fs ++ [(k, v)]

/-- The per-message emotional-state label. -/
inductive EmoState where
  | confident
  | nervous
  | calm
  | engaged
  | uncertain
  deriving DecidableEq

/-- The `engaged` test of `analyzeEmotions` exactly as the source is
parsed: in `m.emotionFeatures.interest ?? m.emotionFeatures.engagement ??
0 > 0.6` the comparison binds tighter than `??`, so the expression is
`interest ?? (engagement ?? (0 > 0.6))` and the `if` takes the truthiness
of that value — `0 > 0.6` is `false`, and a present numeric value is
truthy exactly when it is nonzero. -/
def humeEngagedCond (fs : List (String × ℚ)) : Bool :=
  match lookupF fs "interest" with
  | some v => !(v == 0)
  | none =>
    match lookupF fs "engagement" with
    | some w => !(w == 0)
    | none => false

/-- The per-message classifier of `analyzeEmotions` (emotion-analysis.ts,
lines 171-187). -/
def humeEmotionalState (fs : List (String × ℚ)) : EmoState :=
  let confidence := getF fs "confidence"
  let calmness := getF fs "calmness"
  let nervousness := (lookupF fs "nervousness").getD ((lookupF fs "anxiety").getD 0)
  if confidence ≥ 7/10 ∧ nervousness < 3/10 then .confident
  else if nervousness ≥ 1/2 ∨ confidence < 2/5 then .nervous
  else if calmness ≥ 7/10 then .calm
  else if humeEngagedCond fs then .engaged
  else .uncertain

/-- The per-message classifier of `analyzeTextEmotions` (part_000, lines
384-396), whose `engaged` test is the parenthesised
`(interest ?? engagement ?? 0) > 0.6`. -/
def textEmotionalState (fs : List (String × ℚ)) : EmoState :=
  let confidence := getF fs "confidence"
  let calmness := getF fs "calmness"
  let nervousness := (lookupF fs "nervousness").getD ((lookupF fs "anxiety").getD 0)
  if confidence ≥ 7/10 ∧ nervousness < 3/10 then .confident
  else if nervousness ≥ 1/2 ∨ confidence < 2/5 then .nervous
  else if calmness ≥ 7/10 then .calm
  else if (lookupF fs "interest").getD ((lookupF fs "engagement").getD 0) > 3/5 then .engaged
  else .uncertain

/-- The per-message classifier exactly as the specification words it:
"else `(interest or engagement) > 0.6` → engaged", with `nervousness`
falling back to `anxiety` and `interest` to `engagement`; written from the
spec for comparison with `humeEmotionalState`. -/
def specEmotionalState (fs : List (String × ℚ)) : EmoState :=
  let confidence := getF fs "confidence"
  let calmness := getF fs "calmness"
  let nervousness := (lookupF fs "nervousness").getD ((lookupF fs "anxiety").getD 0)
  if confidence ≥ 7/10 ∧ nervousness < 3/10 then .confident
  else if nervousness ≥ 1/2 ∨ confidence < 2/5 then .nervous
  else if calmness ≥ 7/10 then .calm
  else if (lookupF fs "interest").getD ((lookupF fs "engagement").getD 0) > 3/5 then .engaged
  else .uncertain

/-- The three trend flags. -/
structure Trends where
  improving : Bool
  declining : Bool
  stable : Bool
  deriving DecidableEq

/-- `list.reduce((a, b) => a + b, 0) / list.length`: the JavaScript mean,
which is NaN (modelled as `none`) on an empty list because of `0 / 0`. -/
def meanQ (l : List ℚ) : Option ℚ :=
  if l.isEmpty then none else some (l.sum / (l.length : ℚ))

/-- The trend computation shared verbatim by both aggregators: split the
confidence sequence at the floor midpoint, compare the half means, and
threshold the difference at ±0.1.  When a half mean is NaN every
comparison (including `Math.abs(NaN) <= 0.1`) is false, so all three
flags are false. -/
def trendsOf (confidenceScores : List ℚ) : Trends :=
  let firstHalf := confidenceScores.take (confidenceScores.length / 2)
  let secondHalf := confidenceScores.drop (confidenceScores.length / 2)
  match meanQ secondHalf, meanQ firstHalf with
  | some s, some f =>
    let trendDiff := s - f
    ⟨decide (trendDiff > 1/10), decide (trendDiff < -(1/10)), decide (|trendDiff| ≤ 1/10)⟩
  | _, _ => ⟨false, false, false⟩

/-- The insight strings, shared verbatim by both aggregators. -/
def insightsOf (overallConfidence averageCalmness emotionalStability : ℚ)
    (t : Trends) : List String :=
  [if overallConfidence ≥ 7/10 then "High confidence level detected throughout the interview"
   else if overallConfidence ≥ 1/2 then "Moderate confidence level with room for improvement"
   else "Low confidence detected - candidate may need more preparation"]
  ++ (if averageCalmness ≥ 7/10 then ["Candidate maintained good composure during the interview"]
      else if averageCalmness < 1/2 then ["Signs of nervousness or stress detected"] else [])
  ++ [if emotionalStability ≥ 7/10 then "Emotional state remained stable throughout"
      else "Significant emotional fluctuations observed"]
  ++ (if t.improving then ["Confidence improved as the interview progressed"]
      else if t.declining then ["Confidence decreased during the interview"] else [])

/-- The recommendation strings, shared verbatim by both aggregators. -/
def recommendationsOf (overallConfidence averageCalmness emotionalStability : ℚ)
    (t : Trends) : List String :=
  (if overallConfidence < 3/5 then ["Practice more to build confidence in answering questions"]
   else [])
  ++ (if averageCalmness < 3/5 then ["Work on stress management and relaxation techniques"]
      else [])
  ++ (if emotionalStability < 3/5 then ["Focus on maintaining consistent emotional state"]
      else [])
  ++ (if t.declining then ["Prepare for longer interviews to maintain energy and confidence"]
      else [])

/-- The `Map<string, {total, count}>` accumulated for dominant emotions. -/
structure EmoMap where
  keys : List String
  total : String → ℚ
  cnt : String → Nat

/-- One `entry.total += intensity; entry.count += 1` step (inserting the
key on first sight, as `Map.set` does). -/
def EmoMap.add (m : EmoMap) (emotion : String) (intensity : ℚ) : EmoMap where
  keys := if emotion ∈ m.keys then m.keys else m.keys ++ [emotion]
  total := fun x => if x = emotion then m.total x + intensity else m.total x
  cnt := fun x => if x = emotion then m.cnt x + 1 else m.cnt x

/-- The nested accumulation loop over all messages and their emotion
entries. -/
def buildEmoMap (featss : List (List (String × ℚ))) : EmoMap :=
  featss.foldl (fun m fs => fs.foldl (fun m p => m.add p.1 p.2) m) ⟨[], fun _ => 0, fun _ => 0⟩

/-- One entry of the ranked dominant-emotion list. -/
structure DominantEmotion where
  emotion : String
  averageIntensity : ℚ
  occurrenceCount : Nat
  deriving DecidableEq

/-- Dominant emotions: map the accumulated totals to averages, sort by
descending average intensity (the source's stable comparator
`(a, b) => b.averageIntensity - a.averageIntensity`), keep the top 5. -/
def dominantEmotionsOf (featss : List (List (String × ℚ))) : List DominantEmotion :=
  let m := buildEmoMap featss
  ((m.keys.map fun e => DominantEmotion.mk e (m.total e / (m.cnt e : ℚ)) (m.cnt e)).mergeSort
    fun a b => b.averageIntensity ≤ a.averageIntensity).take 5

/-- `m.text.substring(0, 100) + (m.text.length > 100 ? '...' : '')`. -/
def truncateText (s : String) : String :=
  String.mk (s.toList.take 100) ++ (if s.length > 100 then "..." else "")

/-- One entry of the detailed per-message breakdown. -/
structure BreakdownEntry where
  messageIndex : Nat
  text : String
  emotions : List (String × ℚ)
  confidenceScore : ℚ
  emotionalState : EmoState
  deriving DecidableEq

/-- The result record shared (with identical shape) by both aggregators. -/
structure AnalysisResult where
  overallConfidence : ℚ
  averageCalmness : ℚ
  emotionalStability : ℚ
  dominantEmotions : List DominantEmotion
  emotionalTrends : Trends
  insights : List String
  recommendations : List String
  detailedBreakdown : List BreakdownEntry
  deriving DecidableEq

/-- The filter `m => m.speaker === 'interviewee' && m.emotionFeatures` of
`analyzeEmotions`: a present features object is truthy whether or not it
has any keys, so presence (`isSome`) is the whole test; a missing speaker
fails the equality. -/
def qualifiesHume (m : Msg) : Bool :=
  m.speaker == some "interviewee" && m.emotionFeatures.isSome

/-- `analyzeEmotions` (emotion-analysis.ts, lines 46-208).  The `getD []`
on the features of a qualifying message is the source's non-null cast:
the filter guarantees `isSome`. -/
def analyzeEmotions (messages : List Msg) : AnalysisResult :=
  let intervieweeMessages := messages.filter qualifiesHume
  if intervieweeMessages.isEmpty then
    { overallConfidence := 0
      averageCalmness := 0
      emotionalStability := 0
      dominantEmotions := []
      emotionalTrends := ⟨false, false, true⟩
      insights := ["No emotional data available for analysis"]
      recommendations := ["Ensure emotion features are captured for interviewee messages"]
      detailedBreakdown := [] }
  else
    let featss := intervieweeMessages.map fun m => m.emotionFeatures.getD []
    let confidenceScores := featss.map fun fs => getF fs "confidence"
    let calmnessScores := featss.map fun fs => getF fs "calmness"
    let overallConfidence := confidenceScores.sum / (confidenceScores.length : ℚ)
    let averageCalmness := calmnessScores.sum / (calmnessScores.length : ℚ)
    let variance := (confidenceScores.map fun score => (score - overallConfidence) ^ 2).sum /
      (confidenceScores.length : ℚ)
    let emotionalStability := 1 - min (variance * 4) 1
    let emotionalTrends := trendsOf confidenceScores
    { overallConfidence := overallConfidence
      averageCalmness := averageCalmness
      emotionalStability := emotionalStability
      dominantEmotions := dominantEmotionsOf featss
      emotionalTrends := emotionalTrends
      insights := insightsOf overallConfidence averageCalmness emotionalStability emotionalTrends
      recommendations :=
        recommendationsOf overallConfidence averageCalmness emotionalStability emotionalTrends
      detailedBreakdown := intervieweeMessages.enum.map fun p =>
        let fs := p.2.emotionFeatures.getD []
        { messageIndex := p.1 + 1
          text := truncateText p.2.text
          emotions := fs
          confidenceScore := getF fs "confidence"
          emotionalState := humeEmotionalState fs } }

/-- Is the first character list a prefix of the second? -/
def isPre : List Char → List Char → Bool
  | [], _ => true
  | _ :: _, [] => false
  | a :: as, b :: bs => a == b && isPre as bs

/-- Does `s` contain `w` as a contiguous run?  (`String.prototype.includes`
on character lists; the empty pattern is always contained.) -/
def containsSeq (w : List Char) : List Char → Bool
  | [] => isPre w []
  | c :: rest => isPre w (c :: rest) || containsSeq w rest

/-- `s.includes(sub)`. -/
def includesStr (s sub : String) : Bool := containsSeq sub.toList s.toList

/-- Does the pattern alternative `w` match at the head of `s` with the
trailing `\b` satisfied?  Every alternative used by the source ends in a
word character, so the trailing boundary holds exactly when the next
character, if any, is not a word character. -/
def matchEndB (w s : List Char) : Bool :=
  isPre w s &&
    (match s.drop w.length with
     | [] => true
     | c :: _ => !isWordChar c)

/-- Does `/\b(w)\b/` match anywhere in `s`?  `prev` is the character just
before the current position; every alternative starts with a word
character, so the leading `\b` holds exactly when `prev` is absent or not
a word character. -/
def boundaryMatchAux (w : List Char) : List Char → Option Char → Bool
  | [], _ => false
  | c :: rest, prev =>
    ((match prev with
      | none => true
      | some p => !isWordChar p) && matchEndB w (c :: rest))
      || boundaryMatchAux w rest (some c)

/-- `/\b(w)\b/i.test(text)` for a single word or phrase alternative `w`:
case-insensitivity by lowering both sides. -/
def testWB (text : String) (w : String) : Bool :=
  boundaryMatchAux (w.toList.map Char.toLower) (text.toList.map Char.toLower) none

/-- The emotion keyword table of part_000 (category, word list, weight), in
`Object.entries` order. -/
def emotionKeywords : List (String × List String × ℚ) :=
  [("confidence",
    (["confident", "sure", "certain", "definitely", "absolutely", "expertise",
      "experience", "successful", "accomplished", "achieved", "led", "built",
      "implemented", "designed", "developed", "expert", "proficient", "skilled",
      "strong", "solid", "deep", "comprehensive", "thorough", "extensive"], 1)),
   ("nervousness",
    (["um", "uh", "well", "maybe", "perhaps", "not sure", "uncertain",
      "think", "guess", "probably", "might", "could", "hesitate", "stumble",
      "unsure", "doubt", "worry", "anxious", "nervous", "afraid", "scared"], 1)),
   ("calmness",
    (["calm", "relaxed", "comfortable", "at ease", "peaceful", "steady",
      "composed", "collected", "clear", "focused", "balanced", "stable"], 4/5)),
   ("engagement",
    (["interested", "excited", "curious", "eager", "enthusiastic", "passionate",
      "motivated", "inspired", "fascinated", "engaged", "involved", "active",
      "questions", "wonder", "explore", "learn", "discover"], 9/10)),
   ("interest",
    (["interesting", "curious", "wonder", "want to know", "would like",
      "fascinated", "intrigued", "attracted", "appealing", "appeal", "drawn"], 4/5)),
   ("anxiety",
    (["anxious", "worried", "concerned", "stressed", "pressure", "pressure",
      "nervous", "tense", "uneasy", "apprehensive", "fearful", "panicked"], 1)),
   ("enthusiasm",
    (["excited", "enthusiastic", "thrilled", "eager", "passionate", "energetic",
      "vibrant", "dynamic", "lively", "animated", "zealous", "ardent"], 9/10))]

/-- Positive sentiment indicators. -/
def positiveWords : List String :=
  ["excellent", "great", "good", "amazing", "wonderful", "fantastic",
   "successful", "achieved", "accomplished", "improved", "increased",
   "solved", "optimized", "enhanced", "delivered", "exceeded"]

/-- Negative sentiment indicators. -/
def negativeWords : List String :=
  ["difficult", "challenging", "problem", "issue", "failed", "struggled",
   "hard", "tough", "complex", "complicated", "error", "bug", "broken"]

/-- Uncertainty sentiment indicators. -/
def uncertaintyWords : List String :=
  ["maybe", "perhaps", "might", "could", "possibly", "probably",
   "think", "guess", "not sure", "uncertain", "unsure"]

/-- `analyzeSentiment` of part_000: substring counts over the three word
lists; `(score, magnitude)`. -/
def analyzeSentiment (text : String) : ℚ × ℚ :=
  let lowerText := String.mk (text.toList.map Char.toLower)
  let positiveScore := (positiveWords.filter fun w => includesStr lowerText w).length
  let negativeScore := (negativeWords.filter fun w => includesStr lowerText w).length
  let uncertaintyScore := (uncertaintyWords.filter fun w => includesStr lowerText w).length
  let totalWords := positiveScore + negativeScore + uncertaintyScore
  if totalWords = 0 then (0, 0)
  else
    ((((positiveScore : ℚ) - (negativeScore : ℚ)) - (uncertaintyScore : ℚ) * (1/2)) /
       max (totalWords : ℚ) 1,
     min ((totalWords : ℚ) / 10) 1)

/-- The question-word alternatives of
`/\b(what|how|why|when|where|can|could|would|should)\b/i`. -/
def questionWords : List String :=
  ["what", "how", "why", "when", "where", "can", "could", "would", "should"]

/-- The four `confidentPatterns` regexes, each expanded into the list of
its phrase alternatives (alternation and the optional `s` of `years?`
expanded; `I` lowered since matching is case-insensitive). -/
def confidentPatterns : List (List String) :=
  [["i have", "i built", "i created", "i designed", "i implemented", "i led",
    "i achieved", "i accomplished"],
   ["i am an expert", "i am an senior", "i am an lead", "i am an experienced",
    "i am a expert", "i am a senior", "i am a lead", "i am a experienced",
    "i was an expert", "i was an senior", "i was an lead", "i was an experienced",
    "i was a expert", "i was a senior", "i was a lead", "i was a experienced"],
   ["year of experience", "years of experience"],
   ["successfully", "effectively", "efficiently"]]

/-- The filler-word alternatives of `/\b(um|uh|well|like|you know)\b/gi`. -/
def fillerWords : List String := ["um", "uh", "well", "like", "you know"]

/-- The first filler alternative matching at the current position with both
word boundaries, if any. -/
def firstFillerAt (s : List Char) (prev : Option Char) : Option (List Char) :=
  (fillerWords.map fun w => w.toList).find? fun w =>
    ((match prev with
      | none => true
      | some p => !isWordChar p) && matchEndB w s)

/-- Count the non-overlapping matches of the global filler regex, scanning
left to right and resuming right after each match, as `String.match` with
a `g` flag does. -/
def countFillerAux : List Char → Option Char → Nat
  | [], _ => 0
  | c :: rest, prev =>
    match firstFillerAt (c :: rest) prev with
    | some w => 1 + countFillerAux (rest.drop (w.length - 1)) w.getLast?
    | none => countFillerAux rest (some c)
termination_by s _ => s.length
decreasing_by
  · simp only [List.length_drop, List.length_cons]
    omega
  · simp [List.length_cons]

/-- `(text.match(/\b(um|uh|well|like|you know)\b/gi) || []).length`. -/
def countFiller (text : String) : Nat :=
  countFillerAux (text.toList.map Char.toLower) none

/-- `extractEmotions` of part_000: keyword intensities, sentiment mapping,
question-word engagement, confident statement patterns, filler-word
nervousness, clamping to [0, 1], and the 0.5/0.5 baseline for an otherwise
empty map. -/
def extractEmotions (text : String) : List (String × ℚ) :=
  let lowerText := String.mk (text.toList.map Char.toLower)
  let emotions0 : List (String × ℚ) := emotionKeywords.foldl
    (fun fs entry =>
      let cnt := (entry.2.1.filter fun w => includesStr lowerText w).length
      if cnt > 0 then fs ++ [(entry.1, min ((cnt : ℚ) / (entry.2.1.length : ℚ) * entry.2.2) 1)]
      else fs)
    []
  let sentiment := analyzeSentiment text
  let emotions1 :=
    if sentiment.1 > 3/10 then
      let e := setF emotions0 "confidence"
        (max (jsOr (lookupF emotions0 "confidence") 0) (3/5 + sentiment.1 * (3/10)))
      setF e "calmness" (max (jsOr (lookupF e "calmness") 0) (1/2 + sentiment.1 * (1/5)))
    else if sentiment.1 < -(3/10) then
      let e1 := setF emotions0 "nervousness"
        (max (jsOr (lookupF emotions0 "nervousness") 0) (1/2 + |sentiment.1| * (3/10)))
      let e2 := setF e1 "anxiety"
        (max (jsOr (lookupF e1 "anxiety") 0) (2/5 + |sentiment.1| * (1/5)))
      setF e2 "confidence"
        (min (jsOr (lookupF e2 "confidence") (1/2)) (2/5 - |sentiment.1| * (1/5)))
    else emotions0
  let emotions2 :=
    if questionWords.any (testWB text) then
      let e := setF emotions1 "engagement" (max (jsOr (lookupF emotions1 "engagement") 0) (3/5))
      setF e "interest" (max (jsOr (lookupF e "interest") 0) (1/2))
    else emotions1
  let emotions3 := confidentPatterns.foldl
    (fun fs pats =>
      if pats.any (testWB text) then
        setF fs "confidence" (max (jsOr (lookupF fs "confidence") 0) (7/10))
      else fs)
    emotions2
  let fillerWordCount := countFiller text
  let emotions4 :=
    if fillerWordCount > 0 then
      let e := setF emotions3 "nervousness"
        (max (jsOr (lookupF emotions3 "nervousness") 0) (min ((fillerWordCount : ℚ) * (1/5)) (4/5)))
      setF e "confidence"
        (max 0 (jsOr (lookupF e "confidence") (1/2) - (fillerWordCount : ℚ) * (1/10)))
    else emotions3
  let emotions5 := emotions4.map fun p => (p.1, min (max p.2 0) 1)
  if emotions5.isEmpty then [("confidence", 1/2), ("calmness", 1/2)] else emotions5

/-- The filter `m => m.speaker === 'interviewee'` of `analyzeTextEmotions`. -/
def isIntervieweeText (m : TextMsg) : Bool := m.speaker == some "interviewee"

/-- `analyzeTextEmotions` (part_000, lines 232-417). -/
def analyzeTextEmotions (messages : List TextMsg) : AnalysisResult :=
  let intervieweeMessages := messages.filter isIntervieweeText
  if intervieweeMessages.isEmpty then
    { overallConfidence := 0
      averageCalmness := 0
      emotionalStability := 0
      dominantEmotions := []
      emotionalTrends := ⟨false, false, true⟩
      insights := ["No interviewee messages available for analysis"]
      recommendations := ["Ensure interview transcript contains interviewee responses"]
      detailedBreakdown := [] }
  else
    let messagesWithEmotions := intervieweeMessages.map fun m => (m, extractEmotions m.text)
    let featss := messagesWithEmotions.map fun p => p.2
    let confidenceScores := featss.map fun fs => getF fs "confidence"
    let calmnessScores := featss.map fun fs => getF fs "calmness"
    let overallConfidence := confidenceScores.sum / (confidenceScores.length : ℚ)
    let averageCalmness := calmnessScores.sum / (calmnessScores.length : ℚ)
    let variance := (confidenceScores.map fun score => (score - overallConfidence) ^ 2).sum /
      (confidenceScores.length : ℚ)
    let emotionalStability := 1 - min (variance * 4) 1
    let emotionalTrends := trendsOf confidenceScores
    { overallConfidence := overallConfidence
      averageCalmness := averageCalmness
      emotionalStability := emotionalStability
      dominantEmotions := dominantEmotionsOf featss
      emotionalTrends := emotionalTrends
      insights := insightsOf overallConfidence averageCalmness emotionalStability emotionalTrends
      recommendations :=
        recommendationsOf overallConfidence averageCalmness emotionalStability emotionalTrends
      detailedBreakdown := messagesWithEmotions.enum.map fun p =>
        let fs := p.2.2
        { messageIndex := p.1 + 1
          text := truncateText p.2.1.text
          emotions := fs
          confidenceScore := getF fs "confidence"
          emotionalState := textEmotionalState fs } }

/-- Exactly one of the three trend flags is set. -/
def exactlyOneTrend (t : Trends) : Prop :=
  t.improving.toNat + t.declining.toNat + t.stable.toNat = 1

/-- The average log-probability exactly as the specification words it: the
arithmetic mean, over all n-gram positions of the token sequence, of
`log((count(ngram) + 1) / (count(context) + V + 1))`, where both counts
are occurrence counts over this same text, the context is the first
`n - 1` tokens of the window, and `V` is the number of distinct n-grams. -/
noncomputable def specAvgLogProb (text : String) (ngramOrder : Nat) : ℝ :=
  let tokens := tokenize text
  let ngrams := generateNGrams tokens ngramOrder
  let contexts := (List.range (tokens.length + 1 - ngramOrder)).map fun i =>
    joinSp ((tokens.drop i).take (ngramOrder - 1))
  ((List.range (tokens.length + 1 - ngramOrder)).map fun i =>
    Real.log (((ngrams.count (joinSp ((tokens.drop i).take ngramOrder)) : ℝ) + 1) /
      ((contexts.count (joinSp ((tokens.drop i).take (ngramOrder - 1))) : ℝ) +
        (ngrams.dedup.length : ℝ) + 1))).sum / ((tokens.length + 1 - ngramOrder : Nat) : ℝ)

/-- Membership of the closed unit interval. -/
def unitI (x : ℚ) : Prop := 0 ≤ x ∧ x ≤ 1

/-- All three components of a precision/recall/F1 triple lie in [0, 1]. -/
def prfInUnit (s : PRF) : Prop := unitI s.precision ∧ unitI s.recallV ∧ unitI s.f1

/-- All nine components of a running best state lie in [0, 1]. -/
def tripleInUnit (b : PRF × PRF × PRF) : Prop :=
  prfInUnit b.1 ∧ prfInUnit b.2.1 ∧ prfInUnit b.2.2


/-- For a genuine (non-NaN) trend difference the three threshold tests are
mutually exclusive and exhaustive. -/
lemma exactlyOne_flags (d : ℚ) :
    (decide (d > 1/10)).toNat + (decide (d < -(1/10))).toNat + (decide (|d| ≤ 1/10)).toNat = 1 := by
  by_cases h1 : d > 1/10
  · have h2 : ¬ d < -(1/10) := by linarith
    have h3 : ¬ |d| ≤ 1/10 := by
      intro hc
      have := le_abs_self d
      linarith
    rw [decide_eq_true h1, decide_eq_false h2, decide_eq_false h3]
    rfl
  · by_cases h2 : d < -(1/10)
    · have h3 : ¬ |d| ≤ 1/10 := by
        intro hc
        have := neg_abs_le d
        linarith
      rw [decide_eq_false h1, decide_eq_true h2, decide_eq_false h3]
      rfl
    · have h3 : |d| ≤ 1/10 := abs_le.mpr ⟨by linarith, by linarith⟩
      rw [decide_eq_false h1, decide_eq_false h2, decide_eq_true h3]
      rfl

/-- A take/drop half of a list of length at least two is non-empty. -/
lemma take_half_ne_empty (l : List ℚ) (h : 2 ≤ l.length) :
    (l.take (l.length / 2)).isEmpty = false := by
  have hlen : (l.take (l.length / 2)).length = l.length / 2 := by
    rw [List.length_take]
    omega
  cases hE : (l.take (l.length / 2)).isEmpty
  · rfl
  · exfalso
    rw [List.isEmpty_iff.mp hE] at hlen
    simp at hlen
    omega

/-- The second half of a non-empty list is non-empty. -/
lemma drop_half_ne_empty (l : List ℚ) (h : 1 ≤ l.length) :
    (l.drop (l.length / 2)).isEmpty = false := by
  have hlen : (l.drop (l.length / 2)).length = l.length - l.length / 2 := by
    rw [List.length_drop]
  cases hE : (l.drop (l.length / 2)).isEmpty
  · rfl
  · exfalso
    rw [List.isEmpty_iff.mp hE] at hlen
    simp at hlen
    omega

/-- With at least two scores both halves are non-empty, so the trend flags
come from a real difference and exactly one is set. -/
lemma trendsOf_exactlyOne (l : List ℚ) (h : 2 ≤ l.length) : exactlyOneTrend (trendsOf l) := by
  have hf := take_half_ne_empty l h
  have hs := drop_half_ne_empty l (by omega)
  simp only [trendsOf, meanQ, hf, hs, Bool.false_eq_true, if_false]
  exact exactlyOne_flags _

/-- In the non-empty branch the trend field of `analyzeEmotions` is the
shared trend computation over the per-message confidence scores. -/
lemma analyzeEmotions_trends (ms : List Msg)
    (h : (ms.filter qualifiesHume).isEmpty = false) :
    (analyzeEmotions ms).emotionalTrends =
      trendsOf (((ms.filter qualifiesHume).map fun m => m.emotionFeatures.getD []).map
        fun fs => getF fs "confidence") := by
  simp only [analyzeEmotions, h, Bool.false_eq_true, if_false]

/-- In the non-empty branch the trend field of `analyzeTextEmotions` is the
shared trend computation over the extracted confidence scores. -/
lemma analyzeTextEmotions_trends (ts : List TextMsg)
    (h : (ts.filter isIntervieweeText).isEmpty = false) :
    (analyzeTextEmotions ts).emotionalTrends =
      trendsOf ((((ts.filter isIntervieweeText).map fun m => (m, extractEmotions m.text)).map
        fun p => p.2).map fun fs => getF fs "confidence") := by
  simp only [analyzeTextEmotions, h, Bool.false_eq_true, if_false]

/-- A list whose length is at least one is not `isEmpty`. -/
lemma isEmpty_false_of_le_length {α : Type} (l : List α) (h : 1 ≤ l.length) :
    l.isEmpty = false := by
  cases hE : l.isEmpty
  · rfl
  · exfalso
    rw [List.isEmpty_iff.mp hE] at h
    simp at h

/-- C1 (counterexample): with a single qualifying interviewee message the
first half of the confidence sequence is empty, its mean is NaN, every
comparison with NaN is false, and hence none of the three trend flags is
set — refuting the claim that exactly one is true for any non-empty
sequence, including length one. -/
theorem C1_single_message_no_flag :
    ¬ exactlyOneTrend (analyzeEmotions
      [⟨some "interviewee", "hi", some [("confidence", 1/2)]⟩]).emotionalTrends := by
  intro h
  have h0 : exactlyOneTrend (⟨false, false, false⟩ : Trends) := h
  unfold exactlyOneTrend at h0
  simp at h0

/-- C1 (amended): for both aggregators, whenever at least two messages
qualify, exactly one of the flags improving/declining/stable is true. -/
theorem C1_trend_exclusivity_amended (ms : List Msg) (ts : List TextMsg)
    (hm : 2 ≤ (ms.filter qualifiesHume).length)
    (ht : 2 ≤ (ts.filter isIntervieweeText).length) :
    exactlyOneTrend (analyzeEmotions ms).emotionalTrends ∧
    exactlyOneTrend (analyzeTextEmotions ts).emotionalTrends := by
  constructor
  · rw [analyzeEmotions_trends ms (isEmpty_false_of_le_length _ (by omega))]
    apply trendsOf_exactlyOne
    simpa [List.length_map] using hm
  · rw [analyzeTextEmotions_trends ts (isEmpty_false_of_le_length _ (by omega))]
    apply trendsOf_exactlyOne
    simpa [List.length_map] using ht

/-- Witness for C1: the amended theorem applied to two concrete two-message
transcripts. -/
theorem C1_trend_exclusivity_witness :
    exactlyOneTrend (analyzeEmotions
      [⟨some "interviewee", "hi", some [("confidence", 1/2)]⟩,
       ⟨some "interviewee", "yes", some [("confidence", 3/5)]⟩]).emotionalTrends ∧
    exactlyOneTrend (analyzeTextEmotions
      [⟨some "interviewee", "ok"⟩, ⟨some "interviewee", "fine"⟩]).emotionalTrends :=
  C1_trend_exclusivity_amended _ _ (by decide) (by decide)

/-- C2 (code bug): for the feature map {confidence: 0.5, interest: 0.5}
(no nervousness, calmness, engagement) the claimed priority order yields
`uncertain` (interest 0.5 is not greater than 0.6), and the parenthesised
classifier of `analyzeTextEmotions` agrees; but `analyzeEmotions` labels
the message `engaged`, because in `interest ?? engagement ?? 0 > 0.6` the
comparison binds tighter than `??` and the condition degenerates to the
truthiness of `interest`. -/
theorem C2_engaged_precedence_bug :
    (analyzeEmotions [⟨some "interviewee", "ok",
        some [("confidence", 1/2), ("interest", 1/2)]⟩]).detailedBreakdown.map
      (fun e => e.emotionalState) = [EmoState.engaged] ∧
    specEmotionalState [("confidence", 1/2), ("interest", 1/2)] = EmoState.uncertain ∧
    textEmotionalState [("confidence", 1/2), ("interest", 1/2)] = EmoState.uncertain := by
  refine ⟨?_, ?_, ?_⟩
  · simp [analyzeEmotions, qualifiesHume, humeEmotionalState, humeEngagedCond,
      getF, lookupF, List.find?, List.filter, List.enum, List.enumFrom, truncateText]
    norm_num
  · simp [specEmotionalState, getF, lookupF, List.find?]
    norm_num
  · simp [textEmotionalState, getF, lookupF, List.find?]
    norm_num

/-- C3 (counterexample): a message whose `emotionFeatures` map is present
but has no keys passes the truthiness filter `m.emotionFeatures` and is
included in the detailed breakdown — the claim says such a message is
excluded entirely. -/
theorem C3_empty_map_included :
    (analyzeEmotions [⟨some "interviewee", "hello", some []⟩]).detailedBreakdown.length = 1 := by
  decide

/-- C3 (amended): `analyzeEmotions` aggregates exactly the messages whose
speaker is "interviewee" and whose `emotionFeatures` map is present —
including a present-but-empty map, whose missing confidence/calmness read
as 0; only messages with an absent map are excluded.  The detailed
breakdown carries exactly the feature maps of those messages, in order. -/
theorem C3_filter_amended (messages : List Msg) :
    (analyzeEmotions messages).detailedBreakdown.map (fun e => e.emotions) =
      (messages.filter qualifiesHume).map fun m => m.emotionFeatures.getD [] := by
  cases hE : (messages.filter qualifiesHume).isEmpty
  · simp only [analyzeEmotions, hE, Bool.false_eq_true, if_false]
    rw [List.map_map]
    have : ((messages.filter qualifiesHume).enum.map fun p =>
        ((fun m => m.emotionFeatures.getD []) ∘ Prod.snd) p) =
        (messages.filter qualifiesHume).map fun m => m.emotionFeatures.getD [] := by
      rw [← List.map_map, List.enum_map_snd]
    simpa using this
  · rw [List.isEmpty_iff.mp hE]
    simp [analyzeEmotions, List.isEmpty_iff.mp hE]

/-- C8: the longest-common-subsequence length is symmetric in its two
arguments. -/
theorem C8_lcs_symm (A B : List String) : lcsLength A B = lcsLength B A := by
  induction A generalizing B with
  | nil => cases B <;> simp [lcsLength]
  | cons a as ih =>
    induction B with
    | nil => simp [lcsLength]
    | cons b bs ihB =>
      simp only [lcsLength]
      by_cases h : a = b
      · subst h
        simp [ih]
      · rw [if_neg h, if_neg fun hh => h hh.symm, ih (b :: bs), ihB]
        exact max_comm _ _

/-- C9: with zero qualifying messages, each aggregator returns its
explicit empty result — zero scalar metrics, empty dominant-emotion list
and breakdown, a stable-only trend record, and a single sentinel insight
string — without any failure. -/
theorem C9_empty_result (ms : List Msg) (ts : List TextMsg)
    (hm : ms.filter qualifiesHume = []) (ht : ts.filter isIntervieweeText = []) :
    (analyzeEmotions ms).overallConfidence = 0 ∧
    (analyzeEmotions ms).averageCalmness = 0 ∧
    (analyzeEmotions ms).emotionalStability = 0 ∧
    (analyzeEmotions ms).dominantEmotions = [] ∧
    (analyzeEmotions ms).detailedBreakdown = [] ∧
    (analyzeEmotions ms).emotionalTrends = ⟨false, false, true⟩ ∧
    (analyzeEmotions ms).insights = ["No emotional data available for analysis"] ∧
    (analyzeTextEmotions ts).overallConfidence = 0 ∧
    (analyzeTextEmotions ts).averageCalmness = 0 ∧
    (analyzeTextEmotions ts).emotionalStability = 0 ∧
    (analyzeTextEmotions ts).dominantEmotions = [] ∧
    (analyzeTextEmotions ts).detailedBreakdown = [] ∧
    (analyzeTextEmotions ts).emotionalTrends = ⟨false, false, true⟩ ∧
    (analyzeTextEmotions ts).insights = ["No interviewee messages available for analysis"] := by
  simp [analyzeEmotions, analyzeTextEmotions, hm, ht]

/-- Witness for C9: the empty-transcript and interviewer-only inputs. -/
theorem C9_empty_result_witness :
    (analyzeEmotions []).overallConfidence = 0 ∧
    (analyzeEmotions []).averageCalmness = 0 ∧
    (analyzeEmotions []).emotionalStability = 0 ∧
    (analyzeEmotions []).dominantEmotions = [] ∧
    (analyzeEmotions []).detailedBreakdown = [] ∧
    (analyzeEmotions []).emotionalTrends = ⟨false, false, true⟩ ∧
    (analyzeEmotions []).insights = ["No emotional data available for analysis"] ∧
    (analyzeTextEmotions [⟨some "interviewer", "hello"⟩]).overallConfidence = 0 ∧
    (analyzeTextEmotions [⟨some "interviewer", "hello"⟩]).averageCalmness = 0 ∧
    (analyzeTextEmotions [⟨some "interviewer", "hello"⟩]).emotionalStability = 0 ∧
    (analyzeTextEmotions [⟨some "interviewer", "hello"⟩]).dominantEmotions = [] ∧
    (analyzeTextEmotions [⟨some "interviewer", "hello"⟩]).detailedBreakdown = [] ∧
    (analyzeTextEmotions [⟨some "interviewer", "hello"⟩]).emotionalTrends = ⟨false, false, true⟩ ∧
    (analyzeTextEmotions [⟨some "interviewer", "hello"⟩]).insights =
      ["No interviewee messages available for analysis"] :=
  C9_empty_result [] [⟨some "interviewer", "hello"⟩] rfl rfl

/-- C10: for a non-empty log-probability list the reported token count is
the full input length; with no finite entry the sentinels are returned;
otherwise the average is the mean of the finite entries only and the
perplexity is `exp(-average)`. -/
theorem C10_logprob_perplexity (l : List (Option ℝ)) (h : l ≠ []) :
    (calculatePerplexityFromLogProbs l).tokenCount = l.length ∧
    (l.filterMap id = [] →
      (calculatePerplexityFromLogProbs l).perplexity = ⊤ ∧
      (calculatePerplexityFromLogProbs l).averageLogProbability = ⊥) ∧
    (l.filterMap id ≠ [] →
      (calculatePerplexityFromLogProbs l).averageLogProbability =
        (((l.filterMap id).sum / ((l.filterMap id).length : ℝ) : ℝ) : EReal) ∧
      (calculatePerplexityFromLogProbs l).perplexity =
        ((Real.exp (-((l.filterMap id).sum / ((l.filterMap id).length : ℝ))) : ℝ) : EReal)) := by
  have hl : l.isEmpty = false := by
    cases hE : l.isEmpty
    · rfl
    · exact absurd (List.isEmpty_iff.mp hE) h
  refine ⟨?_, fun hf => ?_, fun hf => ?_⟩
  · simp only [calculatePerplexityFromLogProbs, hl, Bool.false_eq_true, if_false]
    split <;> rfl
  · have hf' : (l.filterMap id).isEmpty = true := List.isEmpty_iff.mpr hf
    simp only [calculatePerplexityFromLogProbs, hl, Bool.false_eq_true, if_false, hf', if_true]
    refine ⟨?_, ?_⟩ <;> first | rfl | trivial
  · have hf' : (l.filterMap id).isEmpty = false := by
      cases hE : (l.filterMap id).isEmpty
      · rfl
      · exact absurd (List.isEmpty_iff.mp hE) hf
    simp only [calculatePerplexityFromLogProbs, hl, Bool.false_eq_true, if_false, hf']
    refine ⟨?_, ?_⟩ <;> first | rfl | trivial

/-- Witness for C10: the list [some 1, none] is non-empty, and the theorem
instantiates on it. -/
theorem C10_logprob_perplexity_witness :
    ([some (1 : ℝ), none] : List (Option ℝ)) ≠ [] ∧
    ((calculatePerplexityFromLogProbs [some (1 : ℝ), none]).tokenCount =
        ([some (1 : ℝ), none] : List (Option ℝ)).length ∧
      (([some (1 : ℝ), none] : List (Option ℝ)).filterMap id = [] →
        (calculatePerplexityFromLogProbs [some (1 : ℝ), none]).perplexity = ⊤ ∧
        (calculatePerplexityFromLogProbs [some (1 : ℝ), none]).averageLogProbability = ⊥) ∧
      (([some (1 : ℝ), none] : List (Option ℝ)).filterMap id ≠ [] →
        (calculatePerplexityFromLogProbs [some (1 : ℝ), none]).averageLogProbability =
          (((([some (1 : ℝ), none] : List (Option ℝ)).filterMap id).sum /
            ((([some (1 : ℝ), none] : List (Option ℝ)).filterMap id).length : ℝ) : ℝ) : EReal) ∧
        (calculatePerplexityFromLogProbs [some (1 : ℝ), none]).perplexity =
          ((Real.exp (-((([some (1 : ℝ), none] : List (Option ℝ)).filterMap id).sum /
            ((([some (1 : ℝ), none] : List (Option ℝ)).filterMap id).length : ℝ))) : ℝ) : EReal))) :=
  ⟨by simp, C10_logprob_perplexity [some (1 : ℝ), none] (by simp)⟩

/-- C4 (counterexample): the text "..." is not blank after trimming and
tokenizes to zero tokens (fewer than the default order 3); it routes
through the unigram fallback, whose empty-token branch returns perplexity
`+Infinity` — not a finite value as claimed. -/
theorem C4_zero_token_infinite :
    isBlank "..." = false ∧ (tokenize "...").length < 3 ∧
    (calculatePerplexity "..." 3).perplexity = ⊤ := by
  have hb : isBlank "..." = false := by decide
  have ht : tokenize "..." = [] := by decide
  refine ⟨hb, by rw [ht]; decide, ?_⟩
  simp [calculatePerplexity, calculateUnigramPerplexity, hb, ht]

/-- C4 (amended): non-blank text with fewer tokens than the n-gram order
always delegates to the unigram fallback; the returned perplexity is
finite whenever at least one token was produced (an all-punctuation text
has zero tokens and yields the `+Infinity` sentinel instead). -/
theorem C4_unigram_fallback_amended (text : String) (n : Nat)
    (hb : isBlank text = false) (hlen : (tokenize text).length < n) :
    calculatePerplexity text n = calculateUnigramPerplexity (tokenize text) ∧
    (tokenize text ≠ [] →
      (calculatePerplexity text n).perplexity ≠ ⊤ ∧
      (calculatePerplexity text n).perplexity ≠ ⊥) := by
  have h1 : calculatePerplexity text n = calculateUnigramPerplexity (tokenize text) := by
    simp [calculatePerplexity, hb, hlen]
  refine ⟨h1, fun hne => ?_⟩
  have hE : (tokenize text).isEmpty = false := by
    cases hX : (tokenize text).isEmpty
    · rfl
    · exact absurd (List.isEmpty_iff.mp hX) hne
  rw [h1]
  simp only [calculateUnigramPerplexity, hE, Bool.false_eq_true, if_false]
  exact ⟨EReal.coe_ne_top _, EReal.coe_ne_bot _⟩

/-- Witness for C4: the two-token text "a b" with order 3. -/
theorem C4_unigram_fallback_witness :
    isBlank "a b" = false ∧ (tokenize "a b").length < 3 ∧
    (calculatePerplexity "a b" 3 = calculateUnigramPerplexity (tokenize "a b") ∧
      (tokenize "a b" ≠ [] →
        (calculatePerplexity "a b" 3).perplexity ≠ ⊤ ∧
        (calculatePerplexity "a b" 3).perplexity ≠ ⊥)) :=
  ⟨by decide, by decide, C4_unigram_fallback_amended "a b" 3 (by decide) (by decide)⟩

/-- Folding the increment step adds the list multiplicity to any starting
count. -/
lemma foldl_incr_count (l : List String) (m : CountMap) (x : String) :
    (l.foldl CountMap.incr m).count x = m.count x + l.count x := by
  induction l generalizing m with
  | nil => simp
  | cons a t ih =>
    rw [List.foldl_cons, ih]
    by_cases h : x = a
    · subst h
      simp [CountMap.incr, List.count_cons]
      omega
    · have : (a :: t).count x = t.count x := by
        simp [List.count_cons, h]
      rw [this]
      simp [CountMap.incr, h]

/-- The count stored by `buildCountMap` is the list multiplicity. -/
lemma buildCountMap_count (l : List String) (x : String) :
    (buildCountMap l).count x = l.count x := by
  simpa using foldl_incr_count l ⟨[], fun _ => 0⟩ x

/-- Folding the increment step accumulates exactly the elements seen. -/
lemma foldl_incr_keys_mem (l : List String) (m : CountMap) (x : String) :
    x ∈ (l.foldl CountMap.incr m).keys ↔ x ∈ m.keys ∨ x ∈ l := by
  induction l generalizing m with
  | nil => simp
  | cons a t ih =>
    rw [List.foldl_cons, ih]
    by_cases h : a ∈ m.keys
    · simp only [CountMap.incr, if_pos h, List.mem_cons]
      constructor
      · rintro (hx | hx)
        · exact Or.inl hx
        · exact Or.inr (Or.inr hx)
      · rintro (hx | hx | hx)
        · exact Or.inl hx
        · exact Or.inl (hx ▸ h)
        · exact Or.inr hx
    · simp only [CountMap.incr, if_neg h, List.mem_append, List.mem_singleton, List.mem_cons]
      tauto

/-- Folding the increment step preserves distinctness of the key list. -/
lemma foldl_incr_keys_nodup (l : List String) (m : CountMap) (h : m.keys.Nodup) :
    (l.foldl CountMap.incr m).keys.Nodup := by
  induction l generalizing m with
  | nil => exact h
  | cons a t ih =>
    rw [List.foldl_cons]
    apply ih
    by_cases ha : a ∈ m.keys
    · simpa [CountMap.incr, ha] using h
    · simp [CountMap.incr, ha, List.nodup_append, h]

/-- The size of the key map built by the counting loop is the number of
distinct elements of the list. -/
lemma buildCountMap_keys_length (l : List String) :
    (buildCountMap l).keys.length = l.dedup.length := by
  have hnd : (buildCountMap l).keys.Nodup := foldl_incr_keys_nodup l ⟨[], fun _ => 0⟩ (by simp)
  have hmem : ∀ x, x ∈ (buildCountMap l).keys ↔ x ∈ l := by
    intro x
    simpa using foldl_incr_keys_mem l ⟨[], fun _ => 0⟩ x
  have h1 : (buildCountMap l).keys.toFinset = l.toFinset := by
    ext x
    simp [hmem x]
  calc (buildCountMap l).keys.length
      = (buildCountMap l).keys.toFinset.card := (List.toFinset_card_of_nodup hnd).symm
    _ = l.toFinset.card := by rw [h1]
    _ = l.dedup.length := List.card_toFinset l


/-- C5: on text with at least `ngramOrder` tokens, `calculatePerplexity`
returns exactly the specification's smoothed mean log-probability, the
perplexity `exp(-average)`, and the token count. -/
theorem C5_ngram_perplexity_formula (text : String) (n : Nat)
    (hb : isBlank text = false) (hlen : n ≤ (tokenize text).length) :
    (calculatePerplexity text n).averageLogProbability =
      ((specAvgLogProb text n : ℝ) : EReal) ∧
    (calculatePerplexity text n).perplexity =
      ((Real.exp (-(specAvgLogProb text n)) : ℝ) : EReal) ∧
    (calculatePerplexity text n).tokenCount = (tokenize text).length := by
  have hnl : ¬ (tokenize text).length < n := not_lt.mpr hlen
  have hk : ¬ ((tokenize text).length + 1 - n = 0) := by omega
  refine ⟨?_, ?_, ?_⟩ <;>
    simp only [calculatePerplexity, specAvgLogProb, generateNGrams, hb, Bool.false_eq_true,
      if_false, hnl, List.length_map, List.length_range, hk, if_true, ite_false, ite_true,
      buildCountMap_count, buildCountMap_keys_length]

/-- Witness for C5: the four-token text "a b c d" with trigram order. -/
theorem C5_ngram_perplexity_witness :
    isBlank "a b c d" = false ∧ 3 ≤ (tokenize "a b c d").length ∧
    ((calculatePerplexity "a b c d" 3).averageLogProbability =
        ((specAvgLogProb "a b c d" 3 : ℝ) : EReal) ∧
      (calculatePerplexity "a b c d" 3).perplexity =
        ((Real.exp (-(specAvgLogProb "a b c d" 3)) : ℝ) : EReal) ∧
      (calculatePerplexity "a b c d" 3).tokenCount = (tokenize "a b c d").length) :=
  ⟨by decide, by decide, C5_ngram_perplexity_formula "a b c d" 3 (by decide) (by decide)⟩

/-- The LCS of a list with itself is its length. -/
lemma lcs_self (l : List String) : lcsLength l l = l.length := by
  induction l with
  | nil => simp [lcsLength]
  | cons a t ih => simp [lcsLength, ih]

/-- The LCS length is at most the length of the first list. -/
lemma lcs_le_left (s t : List String) : lcsLength s t ≤ s.length := by
  induction s generalizing t with
  | nil => simp [lcsLength]
  | cons a as ih =>
    induction t with
    | nil => simp [lcsLength]
    | cons b bs ihB =>
      simp only [lcsLength, List.length_cons]
      by_cases h : a = b
      · rw [if_pos h]
        exact Nat.add_le_add_right (ih bs) 1
      · rw [if_neg h]
        exact max_le (Nat.le_succ_of_le (ih (b :: bs))) ihB

/-- The LCS length is at most the length of the second list. -/
lemma lcs_le_right (s t : List String) : lcsLength s t ≤ t.length := by
  induction s generalizing t with
  | nil => simp [lcsLength]
  | cons a as ih =>
    induction t with
    | nil => simp [lcsLength]
    | cons b bs ihB =>
      simp only [lcsLength, List.length_cons]
      by_cases h : a = b
      · rw [if_pos h]
        exact Nat.add_le_add_right (ih bs) 1
      · rw [if_neg h]
        exact max_le (ih (b :: bs)) (Nat.le_succ_of_le ihB)

/-- Against itself, every n-gram matches: the helper returns the perfect
triple whenever the list is non-empty. -/
lemma calcPRF_self (l : List String) (h : l ≠ []) :
    calculatePrecisionRecallF1 l l = ⟨1, 1, 1⟩ := by
  have hE : l.isEmpty = false := by
    cases hX : l.isEmpty
    · rfl
    · exact absurd (List.isEmpty_iff.mp hX) h
  have hd : l.dedup ≠ [] := by
    intro hc
    exact h ((List.dedup_eq_nil l).mp hc)
  have hdl : 0 < l.dedup.length := List.length_pos.mpr hd
  have hfilter : (l.dedup.filter fun g => l.dedup.contains g) = l.dedup := by
    apply List.filter_eq_self.mpr
    intro a ha
    simpa [List.elem_iff] using ha
  simp only [calculatePrecisionRecallF1, hE, Bool.false_eq_true, if_false, hfilter]
  have hcast : ((l.dedup.length : ℚ)) ≠ 0 := by
    exact_mod_cast Nat.pos_iff_ne_zero.mp hdl
  rw [if_pos hdl, div_self hcast]
  norm_num

/-- Whitespace characters are unchanged by lowercasing. -/
lemma isSpaceChar_toLower {c : Char} (h : isSpaceChar c = true) : c.toLower = c := by
  simp only [isSpaceChar, Bool.or_eq_true, beq_iff_eq] at h
  rcases h with ((((h | h) | h) | h) | h) | h <;> subst h <;> decide

/-- The replacement step keeps whitespace characters. -/
lemma blankNonWord_space {c : Char} (h : isSpaceChar c = true) :
    blankNonWord c.toLower = c := by
  rw [isSpaceChar_toLower h]
  unfold blankNonWord
  rw [if_pos]
  simp [h]

/-- Splitting an all-whitespace character list yields no words. -/
lemma wordsAux_all_space (l : List Char) (h : ∀ c ∈ l, isSpaceChar c = true) :
    wordsAux l [] = [] := by
  induction l with
  | nil => rfl
  | cons c rest ih =>
    have hc := h c (List.mem_cons_self c rest)
    simp only [wordsAux, hc, if_true, List.isEmpty_nil, if_pos]
    exact ih fun d hd => h d (List.mem_cons_of_mem _ hd)

/-- A blank string tokenizes to the empty list. -/
lemma tokenize_of_blank (s : String) (h : isBlank s = true) : tokenize s = [] := by
  unfold tokenize
  rw [wordsAux_all_space, List.map_nil]
  intro c hc
  rcases List.mem_map.mp hc with ⟨d, hd, hcd⟩
  have hsd : isSpaceChar d = true := by
    have := List.all_eq_true.mp h
    exact this d hd
  rw [← hcd, blankNonWord_space hsd]
  exact hsd

/-- A string with at least one token is not blank. -/
lemma isBlank_false_of_tokens (s : String) (h : tokenize s ≠ []) : isBlank s = false := by
  cases hb : isBlank s
  · rfl
  · exact absurd (tokenize_of_blank s hb) h

/-- C6: ROUGE of a text against itself is perfect: F1 = 1 for ROUGE-1,
ROUGE-2 and ROUGE-L whenever the text has at least two distinct words. -/
theorem C6_rouge_identity (X : String) (h : 2 ≤ (tokenize X).dedup.length) :
    (calculateROUGE X [X]).rouge1.f1 = 1 ∧ (calculateROUGE X [X]).rouge2.f1 = 1 ∧
    (calculateROUGE X [X]).rougeL.f1 = 1 := by
  have htok2 : 2 ≤ (tokenize X).length :=
    le_trans h (List.Sublist.length_le (List.dedup_sublist _))
  have hct : tokenize X ≠ [] := by
    intro hc
    rw [hc] at htok2
    simp at htok2
  have hblank : isBlank X = false := isBlank_false_of_tokens X hct
  have hlen1 : (generateNGrams (tokenize X) 1).length = (tokenize X).length + 1 - 1 := by
    simp [generateNGrams]
  have hlen2 : (generateNGrams (tokenize X) 2).length = (tokenize X).length + 1 - 2 := by
    simp [generateNGrams]
  have hu : generateNGrams (tokenize X) 1 ≠ [] := by
    intro hc
    rw [hc] at hlen1
    simp at hlen1
    omega
  have hbg : generateNGrams (tokenize X) 2 ≠ [] := by
    intro hc
    rw [hc] at hlen2
    simp at hlen2
    omega
  have hpos : 0 < (tokenize X).length := by omega
  have hcast : ((tokenize X).length : ℚ) ≠ 0 := by exact_mod_cast Nat.pos_iff_ne_zero.mp hpos
  simp only [calculateROUGE, List.isEmpty_cons, hblank, Bool.or_self, Bool.false_eq_true,
    if_false, List.foldl_cons, List.foldl_nil, rougeStep]
  rw [calcPRF_self _ hu, calcPRF_self _ hbg, lcs_self]
  rw [if_pos hpos, div_self hcast]
  norm_num

/-- Witness for C6: the spec's own example, "the cat sat on the mat". -/
theorem C6_rouge_identity_witness :
    2 ≤ (tokenize "the cat sat on the mat").dedup.length ∧
    ((calculateROUGE "the cat sat on the mat" ["the cat sat on the mat"]).rouge1.f1 = 1 ∧
      (calculateROUGE "the cat sat on the mat" ["the cat sat on the mat"]).rouge2.f1 = 1 ∧
      (calculateROUGE "the cat sat on the mat" ["the cat sat on the mat"]).rougeL.f1 = 1) :=
  ⟨by decide, C6_rouge_identity "the cat sat on the mat" (by decide)⟩


/-- The guarded harmonic mean of two unit-interval values is in the unit
interval. -/
lemma f1_bound {p r : ℚ} (hp : unitI p) (hr : unitI r) :
    unitI (if p + r > 0 then 2 * p * r / (p + r) else 0) := by
  obtain ⟨hp0, hp1⟩ := hp
  obtain ⟨hr0, hr1⟩ := hr
  split
  · rename_i hpr
    constructor
    · exact div_nonneg (by positivity) (le_of_lt hpr)
    · rw [div_le_one hpr]
      nlinarith
  · exact ⟨le_refl 0, by norm_num⟩

/-- Every triple produced by `calculatePrecisionRecallF1` lies in the unit
interval componentwise. -/
lemma calcPRF_bounds (c r : List String) : prfInUnit (calculatePrecisionRecallF1 c r) := by
  unfold calculatePrecisionRecallF1
  split
  · exact ⟨⟨le_refl 0, by norm_num⟩, ⟨le_refl 0, by norm_num⟩, ⟨le_refl 0, by norm_num⟩⟩
  · rename_i hrne
    have hrnil : r ≠ [] := by
      intro hc
      exact hrne (by rw [hc]; rfl)
    have hrd : r.dedup ≠ [] := fun hc => hrnil ((List.dedup_eq_nil r).mp hc)
    have hrdpos : 0 < r.dedup.length := List.length_pos.mpr hrd
    have hmc_c : (c.dedup.filter fun g => r.dedup.contains g).length ≤ c.dedup.length :=
      List.length_filter_le _ _
    have hmc_r : (c.dedup.filter fun g => r.dedup.contains g).length ≤ r.dedup.length := by
      have hnd : (c.dedup.filter fun g => r.dedup.contains g).Nodup :=
        (List.nodup_dedup c).filter _
      have hsub : (c.dedup.filter fun g => r.dedup.contains g).toFinset ⊆ r.dedup.toFinset := by
        intro x hx
        rw [List.mem_toFinset] at hx ⊢
        have := List.of_mem_filter hx
        simpa [List.elem_iff] using this
      calc (c.dedup.filter fun g => r.dedup.contains g).length
          = (c.dedup.filter fun g => r.dedup.contains g).toFinset.card :=
            (List.toFinset_card_of_nodup hnd).symm
        _ ≤ r.dedup.toFinset.card := Finset.card_le_card hsub
        _ = r.dedup.length := List.toFinset_card_of_nodup (List.nodup_dedup r)
    have hp : unitI (if c.dedup.length > 0 then
        (((c.dedup.filter fun g => r.dedup.contains g).length : ℚ)) / (c.dedup.length : ℚ)
      else 0) := by
      split
      · rename_i hcl
        constructor
        · exact div_nonneg (by positivity) (by positivity)
        · rw [div_le_one (by exact_mod_cast hcl)]
          exact_mod_cast hmc_c
      · exact ⟨le_refl 0, by norm_num⟩
    have hr2 : unitI ((((c.dedup.filter fun g => r.dedup.contains g).length : ℚ)) /
        (r.dedup.length : ℚ)) := by
      constructor
      · exact div_nonneg (by positivity) (by positivity)
      · rw [div_le_one (by exact_mod_cast hrdpos)]
        exact_mod_cast hmc_r
    exact ⟨hp, hr2, f1_bound hp hr2⟩

/-- One reference-loop step keeps every running component in the unit
interval. -/
lemma rougeStep_bounds (ct cu cb : List String) (b : PRF × PRF × PRF)
    (hb : tripleInUnit b) (ref : String) : tripleInUnit (rougeStep ct cu cb b ref) := by
  obtain ⟨hb1, hb2, hbL⟩ := hb
  have hlp : unitI (if ct.length > 0 then
      ((lcsLength ct (tokenize ref) : ℚ)) / (ct.length : ℚ) else 0) := by
    split
    · rename_i hlen
      constructor
      · exact div_nonneg (by positivity) (by positivity)
      · rw [div_le_one (by exact_mod_cast hlen)]
        exact_mod_cast lcs_le_left ct (tokenize ref)
    · exact ⟨le_refl 0, by norm_num⟩
  have hlr : unitI (if (tokenize ref).length > 0 then
      ((lcsLength ct (tokenize ref) : ℚ)) / ((tokenize ref).length : ℚ) else 0) := by
    split
    · rename_i hlen
      constructor
      · exact div_nonneg (by positivity) (by positivity)
      · rw [div_le_one (by exact_mod_cast hlen)]
        exact_mod_cast lcs_le_right ct (tokenize ref)
    · exact ⟨le_refl 0, by norm_num⟩
  dsimp only [rougeStep, tripleInUnit]
  set lp := (if ct.length > 0 then
    ((lcsLength ct (tokenize ref) : ℚ)) / (ct.length : ℚ) else 0) with hlp_def
  set lr := (if (tokenize ref).length > 0 then
    ((lcsLength ct (tokenize ref) : ℚ)) / ((tokenize ref).length : ℚ) else 0) with hlr_def
  set lf := (if lp + lr > 0 then 2 * lp * lr / (lp + lr) else 0) with hlf_def
  set r1 := calculatePrecisionRecallF1 cu (generateNGrams (tokenize ref) 1) with hr1_def
  set r2 := calculatePrecisionRecallF1 cb (generateNGrams (tokenize ref) 2) with hr2_def
  refine ⟨?_, ?_, ?_⟩
  · split
    · exact calcPRF_bounds _ _
    · exact hb1
  · split
    · exact calcPRF_bounds _ _
    · exact hb2
  · split
    · exact ⟨hlp, hlr, f1_bound hlp hlr⟩
    · exact hbL

/-- The whole reference loop keeps every component in the unit interval. -/
lemma foldl_rouge_bounds (ct cu cb : List String) (refs : List String)
    (b : PRF × PRF × PRF) (hb : tripleInUnit b) :
    tripleInUnit (refs.foldl (rougeStep ct cu cb) b) := by
  induction refs generalizing b with
  | nil => exact hb
  | cons r rs ih =>
    rw [List.foldl_cons]
    exact ih _ (rougeStep_bounds ct cu cb b hb r)

/-- C7: for every candidate string and reference list, all nine numbers
returned by `calculateROUGE` (precision, recall and F1 of ROUGE-1, ROUGE-2
and ROUGE-L) lie in the closed interval [0, 1]. -/
theorem C7_rouge_bounds (candidate : String) (references : List String) :
    prfInUnit (calculateROUGE candidate references).rouge1 ∧
    prfInUnit (calculateROUGE candidate references).rouge2 ∧
    prfInUnit (calculateROUGE candidate references).rougeL := by
  unfold calculateROUGE
  split
  · exact ⟨⟨⟨le_refl 0, by norm_num⟩, ⟨le_refl 0, by norm_num⟩, ⟨le_refl 0, by norm_num⟩⟩,
      ⟨⟨le_refl 0, by norm_num⟩, ⟨le_refl 0, by norm_num⟩, ⟨le_refl 0, by norm_num⟩⟩,
      ⟨⟨le_refl 0, by norm_num⟩, ⟨le_refl 0, by norm_num⟩, ⟨le_refl 0, by norm_num⟩⟩⟩
  · have h := foldl_rouge_bounds (tokenize candidate)
      (generateNGrams (tokenize candidate) 1) (generateNGrams (tokenize candidate) 2)
      references (⟨0, 0, 0⟩, ⟨0, 0, 0⟩, ⟨0, 0, 0⟩)
      ⟨⟨⟨le_refl 0, by norm_num⟩, ⟨le_refl 0, by norm_num⟩, ⟨le_refl 0, by norm_num⟩⟩,
        ⟨⟨le_refl 0, by norm_num⟩, ⟨le_refl 0, by norm_num⟩, ⟨le_refl 0, by norm_num⟩⟩,
        ⟨⟨le_refl 0, by norm_num⟩, ⟨le_refl 0, by norm_num⟩, ⟨le_refl 0, by norm_num⟩⟩⟩
    exact ⟨h.1, h.2.1, h.2.2⟩
